import Mathlib

set_option maxHeartbeats 1000000
set_option linter.unusedVariables false

namespace FineTuning

/-! Verification of the packed constant-length sequence batching procedure
(the "Sequence Packer" built around `ConstantLengthDataset` in the tutorial
notebooks) and of the Cohere dataset-preprocessing loop.  The
`ConstantLengthDataset` implementation itself lives in the external `trl`
library — the notebooks only construct and iterate it — so the Packer is
modelled from the specification's operational description (§4.1); the Cohere
preprocessing loop is embedded directly from the notebook code. -/

/-- Modelled from the spec: the tokenizer capability of §4.1 — `encode` maps a
text string to an ordered sequence of integer token IDs, and `eotTokenId` is
the end-of-text boundary token ID.  The concrete pretrained tokenizer is an
external collaborator, so only this interface is modelled. -/
structure Tokenizer where
  encode : String → List Nat
  eotTokenId : Nat

/-- Modelled from the spec: the construction parameters of the Sequence Packer
(§4.1) — tokenizer, record source (a lazy finite sequence, modelled as a list),
formatting function, fixed window length, and the `infinite` restart flag.
The `num_of_sequences` buffer-fill knob is omitted: the spec states it is
"purely a throughput knob with no effect on output content". -/
structure PackerConfig (ρ : Type) where
  tokenizer : Tokenizer
  recordSource : List ρ
  formattingFunc : ρ → String
  windowLength : Nat
  infinite : Bool

/-- Modelled from the spec: the mutable state of one Packer instance — the
Iteration Cursor (`start_iteration` in the notebooks: how many records have
been consumed) and the Token Buffer. -/
structure PackerState where
  startIteration : Nat
  buffer : List Nat
deriving DecidableEq

/-- Modelled from the spec: a Packed Window — a fixed-length sequence of
`input_ids` together with an identical-valued `labels` sequence, as shown by
the notebook's sample output `{input_ids: ..., labels: ...}`. -/
structure PackedWindow where
  input_ids : List Nat
  labels : List Nat
deriving DecidableEq

/-- Modelled from the spec: the configuration-error taxonomy of §7(a). -/
inductive ConfigError where
  | invalidWindowLength : ConfigError
deriving DecidableEq

variable {ρ : Type}

/-- Modelled from the spec: constructing a Sequence Packer "fails with a
configuration error if `window_length` ≤ 0" (§4.1), raised immediately at
construction; otherwise the configuration record is returned. -/
def mkPacker (tok : Tokenizer) (src : List ρ) (fmt : ρ → String) (w : Int)
    (inf : Bool) : Except ConfigError (PackerConfig ρ) :=
  if w ≤ 0 then Except.error ConfigError.invalidWindowLength
  else Except.ok ⟨tok, src, fmt, w.toNat, inf⟩

/-- Modelled from the spec: step 1c of "produce next Packed Window" — apply the
formatting function to a record, tokenize the result, and follow the token IDs
with one `end_of_text_token_id` boundary marker. -/
def recordTokens (c : PackerConfig ρ) (r : ρ) : List Nat :=
  c.tokenizer.encode (c.formattingFunc r) ++ [c.tokenizer.eotTokenId]

/-- Token stream obtained by formatting, tokenizing and boundary-marking every
record from position `cursor` onward, in order. -/
def streamFrom (c : PackerConfig ρ) (cursor : Nat) : List Nat :=
  ((c.recordSource.drop cursor).map (recordTokens c)).flatten

/-- Token stream obtained from the whole record source. -/
def fullStream (c : PackerConfig ρ) : List Nat :=
  streamFrom c 0

/-- Modelled from the spec: the refill loop, step 1 of "produce next Packed
Window" (§4.1).  While the Token Buffer holds fewer than `window_length`
tokens: pull the next record and append its tokens plus one boundary marker
(1a, 1c); on exhaustion, restart from record zero when `infinite` is true,
otherwise stop refilling (1b).  `fuel` bounds the number of loop iterations so
the function is total; `none` reports fuel exhaustion (which, with the fuel
used by `produceNext`, only happens in the degenerate never-terminating case
of an empty source with `infinite = true`). -/
def refillLoop (c : PackerConfig ρ) :
    Nat → Nat → List Nat → Option (Nat × List Nat)
  | 0, _, _ => none
  | fuel + 1, cursor, buffer =>
    if buffer.length < c.windowLength then
      if h : cursor < c.recordSource.length then
        refillLoop c fuel (cursor + 1)
          (buffer ++ recordTokens c (c.recordSource.get ⟨cursor, h⟩))
      else if c.infinite then
        refillLoop c fuel 0 buffer
      else
        some (cursor, buffer)
    else
      some (cursor, buffer)

/-- Fuel that suffices for `refillLoop` to terminate in every case except the
degenerate empty-source infinite mode. -/
def defaultFuel (c : PackerConfig ρ) : Nat :=
  2 * c.windowLength + c.recordSource.length + 2

/-- Modelled from the spec: "produce next Packed Window" (§4.1).  Refill the
Token Buffer (step 1); if it now holds at least `window_length` tokens, remove
and return the first `window_length` of them as a Packed Window with labels
identical to inputs, the remainder staying in the buffer (step 2); otherwise
signal end-of-sequence with `none` (step 3). -/
def produceNext (c : PackerConfig ρ) (s : PackerState) :
    Option (PackedWindow × PackerState) :=
  match refillLoop c (defaultFuel c) s.startIteration s.buffer with
  | none => none
  | some (cursor, buffer) =>
    if c.windowLength ≤ buffer.length then
      some (⟨buffer.take c.windowLength, buffer.take c.windowLength⟩,
        ⟨cursor, buffer.drop c.windowLength⟩)
    else
      none

/-- The initial state of a freshly constructed Packer: cursor zero, empty
Token Buffer. -/
def initState : PackerState :=
  ⟨0, []⟩

/-- Modelled from the spec: the reset operation `reset_cursor(position)` — sets
the Iteration Cursor and clears the Token Buffer, "allowing the caller to
re-derive a fresh lazy sequence deterministically" (§4.1). -/
def reset_cursor (_s : PackerState) (position : Nat) : PackerState :=
  ⟨position, []⟩

/-- Produce up to `k` Packed Windows starting from state `s`, stopping early
when the Packer signals end-of-sequence. -/
def produceWindows (c : PackerConfig ρ) : Nat → PackerState → List PackedWindow
  | 0, _ => []
  | k + 1, s =>
    match produceNext c s with
    | none => []
    | some (w, s') => w :: produceWindows c k s'

/-- All windows emitted by a freshly constructed finite-mode Packer: the
production run terminates within `(fullStream c).length + 1` pulls because
every emitted window consumes `window_length ≥ 1` tokens of the stream. -/
def allWindows (c : PackerConfig ρ) : List PackedWindow :=
  produceWindows c ((fullStream c).length + 1) initState

/-- Modelled from the spec: one pull from the record source (steps 1a–1b) —
return the record at the cursor and the advanced cursor; on exhaustion, if
`infinite` is true reset the cursor to zero and pull again, else report
exhaustion. -/
def pullOne (c : PackerConfig ρ) (cursor : Nat) : Option (ρ × Nat) :=
  if h : cursor < c.recordSource.length then
    some (c.recordSource.get ⟨cursor, h⟩, cursor + 1)
  else if c.infinite then
    if h0 : 0 < c.recordSource.length then
      some (c.recordSource.get ⟨0, h0⟩, 1)
    else
      none
  else
    none

/-- The `k`-th record pulled (0-indexed) when repeatedly pulling from the
source starting at `cursor`, with the wrap-around of `pullOne`. -/
def nthPulled (c : PackerConfig ρ) (cursor : Nat) : Nat → Option ρ
  | 0 => (pullOne c cursor).map Prod.fst
  | k + 1 =>
    match pullOne c cursor with
    | none => none
    | some (_, cursor') => nthPulled c cursor' k

theorem recordTokens_length_pos (c : PackerConfig ρ) (r : ρ) :
    0 < (recordTokens c r).length := by
  simp [recordTokens]

theorem streamFrom_exhausted (c : PackerConfig ρ) {cursor : Nat}
    (h : c.recordSource.length ≤ cursor) : streamFrom c cursor = [] := by
  simp [streamFrom, List.drop_eq_nil_of_le h]

theorem streamFrom_step (c : PackerConfig ρ) {cursor : Nat}
    (h : cursor < c.recordSource.length) :
    streamFrom c cursor =
      recordTokens c (c.recordSource.get ⟨cursor, h⟩) ++ streamFrom c (cursor + 1) := by
  unfold streamFrom
  rw [List.drop_eq_getElem_cons h]
  simp only [List.map_cons, List.flatten_cons, List.get_eq_getElem]

/-- Refill termination and stream preservation in finite mode: with enough
fuel the refill loop returns; the buffer content followed by the not yet
consumed stream is unchanged; and on return either a full window is buffered
or the source is exhausted with a short buffer. -/
theorem refill_finite (c : PackerConfig ρ) (hinf : c.infinite = false) :
    ∀ fuel cursor buffer, c.recordSource.length - cursor < fuel →
      ∃ cursor' buffer',
        refillLoop c fuel cursor buffer = some (cursor', buffer') ∧
        buffer' ++ streamFrom c cursor' = buffer ++ streamFrom c cursor ∧
        (c.windowLength ≤ buffer'.length ∨
          (c.recordSource.length ≤ cursor' ∧ buffer'.length < c.windowLength)) := by
  intro fuel
  induction fuel with
  | zero =>
    intro cursor buffer h
    exact absurd h (Nat.not_lt_zero _)
  | succ fuel ih =>
    intro cursor buffer h
    by_cases hb : buffer.length < c.windowLength
    · by_cases hc : cursor < c.recordSource.length
      · obtain ⟨cursor', buffer', hp, hstream, hpost⟩ :=
          ih (cursor + 1)
            (buffer ++ recordTokens c (c.recordSource.get ⟨cursor, hc⟩)) (by omega)
        refine ⟨cursor', buffer', ?_, ?_, hpost⟩
        · simpa [refillLoop, hb, hc] using hp
        · rw [hstream, streamFrom_step c hc, List.append_assoc]
      · refine ⟨cursor, buffer, ?_, rfl, Or.inr ⟨by omega, hb⟩⟩
        simp [refillLoop, hb, hc, hinf]
    · refine ⟨cursor, buffer, ?_, rfl, Or.inl (by omega)⟩
      simp [refillLoop, hb]

/-- Refill termination in infinite mode over a non-empty source: with enough
fuel the refill loop returns a buffer holding at least a full window, since
every pulled record contributes at least its boundary token and the cursor
wrap-around costs at most one extra iteration per pull. -/
theorem refill_infinite (c : PackerConfig ρ) (hinf : c.infinite = true)
    (hne : c.recordSource ≠ []) :
    ∀ fuel cursor buffer,
      2 * (c.windowLength - buffer.length) +
        (if cursor < c.recordSource.length then 1 else 2) ≤ fuel →
      ∃ cursor' buffer',
        refillLoop c fuel cursor buffer = some (cursor', buffer') ∧
        c.windowLength ≤ buffer'.length := by
  have hn : 0 < c.recordSource.length := List.length_pos.mpr hne
  intro fuel
  induction fuel with
  | zero =>
    intro cursor buffer h
    exfalso
    split at h <;> omega
  | succ fuel ih =>
    intro cursor buffer h
    by_cases hb : buffer.length < c.windowLength
    · by_cases hc : cursor < c.recordSource.length
      · have hlen :
            buffer.length + 1 ≤
              (buffer ++ recordTokens c (c.recordSource.get ⟨cursor, hc⟩)).length := by
          simp [recordTokens]
        have hfuel :
            2 * (c.windowLength -
                (buffer ++ recordTokens c (c.recordSource.get ⟨cursor, hc⟩)).length) +
              (if cursor + 1 < c.recordSource.length then 1 else 2) ≤ fuel := by
          rw [if_pos hc] at h
          split <;> omega
        obtain ⟨cursor', buffer', hp, hW⟩ := ih (cursor + 1) _ hfuel
        refine ⟨cursor', buffer', ?_, hW⟩
        simpa [refillLoop, hb, hc] using hp
      · have hfuel :
            2 * (c.windowLength - buffer.length) +
              (if 0 < c.recordSource.length then 1 else 2) ≤ fuel := by
          rw [if_neg hc] at h
          rw [if_pos hn]
          omega
        obtain ⟨cursor', buffer', hp, hW⟩ := ih 0 buffer hfuel
        refine ⟨cursor', buffer', ?_, hW⟩
        simpa [refillLoop, hb, hc, hinf] using hp
    · refine ⟨cursor, buffer, ?_, by omega⟩
      simp [refillLoop, hb]

/-- In finite mode the refill loop always terminates within `defaultFuel`. -/
theorem refill_default_finite (c : PackerConfig ρ) (hinf : c.infinite = false)
    (cursor : Nat) (buffer : List Nat) :
    ∃ cursor' buffer',
      refillLoop c (defaultFuel c) cursor buffer = some (cursor', buffer') ∧
      buffer' ++ streamFrom c cursor' = buffer ++ streamFrom c cursor ∧
      (c.windowLength ≤ buffer'.length ∨
        (c.recordSource.length ≤ cursor' ∧ buffer'.length < c.windowLength)) :=
  refill_finite c hinf (defaultFuel c) cursor buffer (by unfold defaultFuel; omega)

/-- Every window handed out by `produceNext` has exactly `windowLength`
input token IDs and labels identical to the inputs, in either mode. -/
theorem produceNext_some_shape (c : PackerConfig ρ) {s : PackerState}
    {w : PackedWindow} {s' : PackerState} (h : produceNext c s = some (w, s')) :
    w.input_ids.length = c.windowLength ∧ w.labels = w.input_ids := by
  unfold produceNext at h
  rcases hr : refillLoop c (defaultFuel c) s.startIteration s.buffer with _ | ⟨cursor, buffer⟩
  · rw [hr] at h
    exact absurd h (by simp)
  · rw [hr] at h
    dsimp only at h
    by_cases hW : c.windowLength ≤ buffer.length
    · rw [if_pos hW] at h
      injection h with h
      injection h with hw hs
      subst hw
      refine ⟨?_, rfl⟩
      simp only [List.length_take]
      omega
    · rw [if_neg hW] at h
      exact absurd h (by simp)

/-- In finite mode, emitting a window removes exactly its tokens from the
front of the remaining token stream (buffer followed by unconsumed records):
no token is dropped or duplicated across the window boundary. -/
theorem produceNext_some_stream (c : PackerConfig ρ) (hinf : c.infinite = false)
    {s : PackerState} {w : PackedWindow} {s' : PackerState}
    (h : produceNext c s = some (w, s')) :
    w.input_ids ++ (s'.buffer ++ streamFrom c s'.startIteration) =
      s.buffer ++ streamFrom c s.startIteration := by
  obtain ⟨cursor', buffer', hp, hstream, hpost⟩ :=
    refill_default_finite c hinf s.startIteration s.buffer
  unfold produceNext at h
  rw [hp] at h
  dsimp only at h
  by_cases hW : c.windowLength ≤ buffer'.length
  · rw [if_pos hW] at h
    injection h with h
    injection h with hw hs
    subst hw
    subst hs
    dsimp only
    rw [← List.append_assoc, List.take_append_drop]
    exact hstream
  · rw [if_neg hW] at h
    exact absurd h (by simp)

/-- In finite mode, `produceNext` signals end-of-sequence exactly when fewer
than `windowLength` tokens remain in the buffer plus the unconsumed stream. -/
theorem produceNext_none_iff (c : PackerConfig ρ) (hinf : c.infinite = false)
    (s : PackerState) :
    produceNext c s = none ↔
      (s.buffer ++ streamFrom c s.startIteration).length < c.windowLength := by
  obtain ⟨cursor', buffer', hp, hstream, hpost⟩ :=
    refill_default_finite c hinf s.startIteration s.buffer
  have hlen := congrArg List.length hstream
  simp only [List.length_append] at hlen
  unfold produceNext
  rw [hp]
  dsimp only
  by_cases hW : c.windowLength ≤ buffer'.length
  · rw [if_pos hW]
    simp only [reduceCtorEq, false_iff, List.length_append]
    omega
  · rcases hpost with hW' | ⟨hex, hshort⟩
    · exact absurd hW' hW
    · have hnil : streamFrom c cursor' = [] := streamFrom_exhausted c hex
      rw [hnil] at hlen
      simp only [List.length_nil] at hlen
      rw [if_neg hW]
      refine iff_of_true rfl ?_
      simp only [List.length_append]
      omega

/-- Finite-mode production: with enough fuel `k`, the emitted windows
concatenate to the front of the remaining token stream and the discarded
leftover is strictly shorter than one window. -/
theorem produceWindows_concat (c : PackerConfig ρ) (hinf : c.infinite = false) :
    ∀ k s,
      (s.buffer ++ streamFrom c s.startIteration).length < k * c.windowLength →
      ∃ rest,
        s.buffer ++ streamFrom c s.startIteration =
          ((produceWindows c k s).map PackedWindow.input_ids).flatten ++ rest ∧
        rest.length < c.windowLength := by
  intro k
  induction k with
  | zero =>
    intro s h
    exact absurd h (by simp)
  | succ k ih =>
    intro s h
    rcases hn : produceNext c s with _ | ⟨w, s'⟩
    · refine ⟨s.buffer ++ streamFrom c s.startIteration, ?_, ?_⟩
      · simp [produceWindows, hn]
      · exact (produceNext_none_iff c hinf s).mp hn
    · have hshape := produceNext_some_shape c hn
      have hstream := produceNext_some_stream c hinf hn
      have hlen := congrArg List.length hstream
      rw [Nat.succ_mul] at h
      set kW := k * c.windowLength with hkW
      have hlen' :
          (s'.buffer ++ streamFrom c s'.startIteration).length < kW := by
        simp only [List.length_append] at hlen h ⊢
        omega
      obtain ⟨rest, hrest, hrlen⟩ := ih s' hlen'
      refine ⟨rest, ?_, hrlen⟩
      rw [← hstream, hrest]
      simp [produceWindows, hn, List.append_assoc]

/-- Every window in a production run was handed out by some `produceNext`
step. -/
theorem mem_produceWindows (c : PackerConfig ρ) :
    ∀ k s w, w ∈ produceWindows c k s →
      ∃ s₁ s₂, produceNext c s₁ = some (w, s₂) := by
  intro k
  induction k with
  | zero =>
    intro s w h
    exact absurd h (by simp [produceWindows])
  | succ k ih =>
    intro s w h
    rcases hn : produceNext c s with _ | ⟨w', s'⟩
    · simp [produceWindows, hn] at h
    · simp only [produceWindows, hn, List.mem_cons] at h
      rcases h with h | h
      · exact ⟨s, s', h ▸ hn⟩
      · exact ih s' w h

/-- While the source is not yet exhausted the pull sequence walks the records
in order: the `k`-th pull starting at `cursor` is the pull at `cursor + k`. -/
theorem nthPulled_shift (c : PackerConfig ρ) :
    ∀ k cursor, cursor + k ≤ c.recordSource.length →
      nthPulled c cursor k = (pullOne c (cursor + k)).map Prod.fst := by
  intro k
  induction k with
  | zero =>
    intro cursor h
    rfl
  | succ k ih =>
    intro cursor h
    have hc : cursor < c.recordSource.length := by omega
    rw [nthPulled]
    unfold pullOne
    rw [dif_pos hc]
    dsimp only
    rw [ih (cursor + 1) (by omega)]
    have harith : cursor + 1 + k = cursor + (k + 1) := by omega
    rw [harith]
    rfl

/-- Once `produceNext` signals end-of-sequence, production emits nothing. -/
theorem produceWindows_of_none (c : PackerConfig ρ) {s : PackerState}
    (h : produceNext c s = none) : ∀ k, produceWindows c k s = [] := by
  intro k
  cases k with
  | zero => rfl
  | succ k => simp [produceWindows, h]

/-- Character-code tokenizer used for concrete checks: the spec's "identity
character-code mapping" example tokenizer, with boundary token ID 0. -/
def charTok : Tokenizer :=
  ⟨fun s => s.toList.map Char.toNat, 0⟩

/-- Concrete two-record finite Packer over the character tokenizer. -/
def twoRecConfig : PackerConfig String :=
  ⟨charTok, ["ab", "cd"], id, 5, false⟩

/-- Concrete one-record finite Packer whose stream is shorter than a window. -/
def shortConfig : PackerConfig String :=
  ⟨charTok, ["ab"], id, 5, false⟩

/-- Concrete two-record infinite-mode Packer. -/
def infConfig : PackerConfig String :=
  ⟨charTok, ["ab", "cd"], id, 5, true⟩

/-- Concrete two-record finite Packer with a window wider than two records. -/
def wideConfig : PackerConfig String :=
  ⟨charTok, ["ab", "cd"], id, 7, false⟩

/-- Concrete Packer over an empty record source. -/
def emptyConfig : PackerConfig String :=
  ⟨charTok, [], id, 5, false⟩

/-- C1: every Packed Window emitted by a Sequence Packer constructed with a
positive window length contains exactly `windowLength` integer token IDs, and
its labels sequence is element-wise identical to its input token-ID
sequence. -/
theorem C1_window_shape {ρ : Type} (c : PackerConfig ρ)
    (hpos : 0 < c.windowLength) (k : Nat) (s : PackerState) (w : PackedWindow)
    (hw : w ∈ produceWindows c k s) :
    w.input_ids.length = c.windowLength ∧ w.labels = w.input_ids := by
  obtain ⟨s₁, s₂, h⟩ := mem_produceWindows c k s w hw
  exact produceNext_some_shape c h

theorem C1_window_shape_witness :
    0 < twoRecConfig.windowLength ∧
      ((⟨[97, 98, 0, 99, 100], [97, 98, 0, 99, 100]⟩ : PackedWindow).input_ids.length =
          twoRecConfig.windowLength ∧
        (⟨[97, 98, 0, 99, 100], [97, 98, 0, 99, 100]⟩ : PackedWindow).labels =
          (⟨[97, 98, 0, 99, 100], [97, 98, 0, 99, 100]⟩ : PackedWindow).input_ids) :=
  ⟨by decide,
    C1_window_shape twoRecConfig (by decide) 1 initState
      ⟨[97, 98, 0, 99, 100], [97, 98, 0, 99, 100]⟩ (by decide)⟩

/-- C2: for a non-empty finite record source consumed with `infinite = false`
and a positive window length, the concatenation of all emitted Packed Windows
is a prefix of the stream obtained by formatting, tokenizing and
boundary-marking every record in order; the total token count across windows
is at most the total produced, the difference being the discarded final
remainder, strictly shorter than one window. -/
theorem C2_all_windows_stream {ρ : Type} (c : PackerConfig ρ)
    (hinf : c.infinite = false) (hne : c.recordSource ≠ [])
    (hpos : 0 < c.windowLength) :
    ∃ rest,
      fullStream c =
        ((allWindows c).map PackedWindow.input_ids).flatten ++ rest ∧
      rest.length < c.windowLength ∧
      (((allWindows c).map PackedWindow.input_ids).flatten).length + rest.length =
        (fullStream c).length := by
  have hmul : (fullStream c).length + 1 ≤
      ((fullStream c).length + 1) * c.windowLength := by
    calc (fullStream c).length + 1
        = ((fullStream c).length + 1) * 1 := by omega
      _ ≤ ((fullStream c).length + 1) * c.windowLength :=
          Nat.mul_le_mul_left _ hpos
  have h2 : initState.buffer ++ streamFrom c initState.startIteration =
      fullStream c := by
    simp [initState, fullStream]
  have h0 : (initState.buffer ++ streamFrom c initState.startIteration).length <
      ((fullStream c).length + 1) * c.windowLength := by
    rw [h2]
    omega
  obtain ⟨rest, hrest, hrlen⟩ :=
    produceWindows_concat c hinf ((fullStream c).length + 1) initState h0
  have hrest' : fullStream c =
      ((allWindows c).map PackedWindow.input_ids).flatten ++ rest := by
    rw [← h2, hrest]
    rfl
  refine ⟨rest, hrest', hrlen, ?_⟩
  have hlen := congrArg List.length hrest'
  simp only [List.length_append] at hlen
  omega

theorem C2_all_windows_stream_witness :
    ∃ rest,
      fullStream twoRecConfig =
        ((allWindows twoRecConfig).map PackedWindow.input_ids).flatten ++ rest ∧
      rest.length < twoRecConfig.windowLength ∧
      (((allWindows twoRecConfig).map PackedWindow.input_ids).flatten).length +
          rest.length =
        (fullStream twoRecConfig).length :=
  C2_all_windows_stream twoRecConfig rfl (by simp [twoRecConfig]) (by decide)

/-- C3: with `infinite = false`, the produce-next-window operation signals
end-of-sequence exactly when the refill pass ends with the record source
exhausted and fewer than `windowLength` tokens in the Token Buffer; any
non-terminal result is a full-length window, so the final partial remainder
is never emitted as a short window. -/
theorem C3_end_of_sequence {ρ : Type} (c : PackerConfig ρ)
    (hinf : c.infinite = false) (s : PackerState) :
    (produceNext c s = none ↔
      ∃ cursor' buffer',
        refillLoop c (defaultFuel c) s.startIteration s.buffer =
          some (cursor', buffer') ∧
        c.recordSource.length ≤ cursor' ∧
        buffer'.length < c.windowLength) ∧
    (∀ w s', produceNext c s = some (w, s') →
      w.input_ids.length = c.windowLength) := by
  obtain ⟨cu, bu, hp, hstream, hpost⟩ :=
    refill_default_finite c hinf s.startIteration s.buffer
  constructor
  · constructor
    · intro hnone
      unfold produceNext at hnone
      rw [hp] at hnone
      dsimp only at hnone
      by_cases hW : c.windowLength ≤ bu.length
      · rw [if_pos hW] at hnone
        exact absurd hnone (by simp)
      · rcases hpost with h | h
        · exact absurd h hW
        · exact ⟨cu, bu, hp, h.1, h.2⟩
    · rintro ⟨cu', bu', hp', hex, hshort⟩
      rw [hp] at hp'
      injection hp' with hp'
      injection hp' with h1 h2
      subst h1
      subst h2
      unfold produceNext
      rw [hp]
      dsimp only
      rw [if_neg (by omega)]
  · intro w s' h
    exact (produceNext_some_shape c h).1

theorem C3_end_of_sequence_witness :
    (produceNext shortConfig initState = none ↔
      ∃ cursor' buffer',
        refillLoop shortConfig (defaultFuel shortConfig)
            initState.startIteration initState.buffer =
          some (cursor', buffer') ∧
        shortConfig.recordSource.length ≤ cursor' ∧
        buffer'.length < shortConfig.windowLength) ∧
    (∀ w s', produceNext shortConfig initState = some (w, s') →
      w.input_ids.length = shortConfig.windowLength) :=
  C3_end_of_sequence shortConfig rfl initState

/-- C4: with `infinite = true` over a non-empty finite source the produced
sequence never signals end-of-sequence from any state, and the record pulled
immediately after the source is exhausted equals the first record pulled:
for a source of `n` records, the `(n+1)`-th pull equals the 1st pull, and it
does yield a record. -/
theorem C4_infinite_restart {ρ : Type} (c : PackerConfig ρ)
    (hinf : c.infinite = true) (hne : c.recordSource ≠ []) :
    (∀ s, produceNext c s ≠ none) ∧
    nthPulled c 0 c.recordSource.length = nthPulled c 0 0 ∧
    nthPulled c 0 c.recordSource.length ≠ none := by
  have hn : 0 < c.recordSource.length := List.length_pos.mpr hne
  have hpull : nthPulled c 0 c.recordSource.length = nthPulled c 0 0 ∧
      nthPulled c 0 c.recordSource.length ≠ none := by
    have h1 := nthPulled_shift c c.recordSource.length 0 (by omega)
    have h0 := nthPulled_shift c 0 0 (by omega)
    rw [h1, h0]
    simp only [Nat.zero_add]
    constructor
    · simp [pullOne, hinf, hn]
    · simp [pullOne, hinf, hn]
  refine ⟨?_, hpull⟩
  intro s
  have hfuel : 2 * (c.windowLength - s.buffer.length) +
      (if s.startIteration < c.recordSource.length then 1 else 2) ≤
      defaultFuel c := by
    unfold defaultFuel
    split <;> omega
  obtain ⟨cu, bu, hp, hW⟩ :=
    refill_infinite c hinf hne (defaultFuel c) s.startIteration s.buffer hfuel
  unfold produceNext
  rw [hp]
  dsimp only
  rw [if_pos hW]
  simp

theorem C4_infinite_restart_witness :
    (∀ s, produceNext infConfig s ≠ none) ∧
    nthPulled infConfig 0 infConfig.recordSource.length =
      nthPulled infConfig 0 0 ∧
    nthPulled infConfig 0 infConfig.recordSource.length ≠ none :=
  C4_infinite_restart infConfig rfl (by simp [infConfig])

/-- C5: calling the reset operation `reset_cursor(0)` after any history of
prior consumption and then producing `k` windows yields exactly the same
windows — and hence the same token sequence — as a freshly constructed Packer
over the same source producing `k` windows. -/
theorem C5_reset_idempotent {ρ : Type} (c : PackerConfig ρ) (s : PackerState)
    (k : Nat) :
    produceWindows c k (reset_cursor s 0) = produceWindows c k initState ∧
    ((produceWindows c k (reset_cursor s 0)).map PackedWindow.input_ids).flatten =
      ((produceWindows c k initState).map PackedWindow.input_ids).flatten :=
  ⟨rfl, rfl⟩

/-- C6: when a buffer refill consumes the consecutive records `i` and `i+1`,
the Token Buffer receives the tokens of record `i`, then the boundary marker
`eotTokenId` exactly once, then the tokens of record `i+1` (followed by its
own trailing marker): exactly one boundary token stands between the
tokenizations of adjacent records. -/
theorem C6_boundary_between {ρ : Type} (c : PackerConfig ρ) (fuel i : Nat)
    (buffer : List Nat) (h1 : i < c.recordSource.length)
    (h2 : i + 1 < c.recordSource.length)
    (hb1 : buffer.length < c.windowLength)
    (hb2 : (buffer ++ recordTokens c (c.recordSource.get ⟨i, h1⟩)).length <
      c.windowLength) :
    refillLoop c (fuel + 2) i buffer =
      refillLoop c fuel (i + 2)
        (buffer ++
          c.tokenizer.encode (c.formattingFunc (c.recordSource.get ⟨i, h1⟩)) ++
          [c.tokenizer.eotTokenId] ++
          c.tokenizer.encode (c.formattingFunc (c.recordSource.get ⟨i + 1, h2⟩)) ++
          [c.tokenizer.eotTokenId]) := by
  have step1 : refillLoop c (fuel + 2) i buffer =
      refillLoop c (fuel + 1) (i + 1)
        (buffer ++ recordTokens c (c.recordSource.get ⟨i, h1⟩)) := by
    conv_lhs => rw [refillLoop]
    rw [if_pos hb1, dif_pos h1]
  have step2 : refillLoop c (fuel + 1) (i + 1)
        (buffer ++ recordTokens c (c.recordSource.get ⟨i, h1⟩)) =
      refillLoop c fuel (i + 1 + 1)
        ((buffer ++ recordTokens c (c.recordSource.get ⟨i, h1⟩)) ++
          recordTokens c (c.recordSource.get ⟨i + 1, h2⟩)) := by
    conv_lhs => rw [refillLoop]
    rw [if_pos hb2, dif_pos h2]
  rw [step1, step2]
  congr 1
  simp [recordTokens, List.append_assoc]

theorem C6_boundary_between_witness :
    refillLoop wideConfig (0 + 2) 0 [] =
      refillLoop wideConfig 0 (0 + 2)
        (([] : List Nat) ++
          wideConfig.tokenizer.encode
            (wideConfig.formattingFunc (wideConfig.recordSource.get ⟨0, by decide⟩)) ++
          [wideConfig.tokenizer.eotTokenId] ++
          wideConfig.tokenizer.encode
            (wideConfig.formattingFunc (wideConfig.recordSource.get ⟨0 + 1, by decide⟩)) ++
          [wideConfig.tokenizer.eotTokenId]) :=
  C6_boundary_between wideConfig 0 0 [] (by decide) (by decide) (by decide)
    (by decide)

/-- C7: a Packer over an empty record source with `infinite = false` and a
positive window length terminates immediately: the produce operation signals
end-of-sequence at once and every production run emits zero windows — a valid
empty result rather than an error. -/
theorem C7_empty_source {ρ : Type} (c : PackerConfig ρ)
    (hsrc : c.recordSource = []) (hinf : c.infinite = false)
    (hpos : 0 < c.windowLength) :
    produceNext c initState = none ∧
    ∀ k, produceWindows c k initState = [] := by
  have hnil : streamFrom c 0 = [] := streamFrom_exhausted c (by simp [hsrc])
  have hnone : produceNext c initState = none := by
    apply (produceNext_none_iff c hinf initState).mpr
    simpa [initState, hnil] using hpos
  exact ⟨hnone, produceWindows_of_none c hnone⟩

theorem C7_empty_source_witness :
    produceNext emptyConfig initState = none ∧
    ∀ k, produceWindows emptyConfig k initState = [] :=
  C7_empty_source emptyConfig rfl rfl (by decide)

/-- C8: constructing the Sequence Packer with `window_length ≤ 0` fails
immediately with a configuration error, and no configuration — hence no
Packed Window — ever results from such parameters. -/
theorem C8_config_error {ρ : Type} (tok : Tokenizer) (src : List ρ)
    (fmt : ρ → String) (w : Int) (inf : Bool) (hw : w ≤ 0) :
    mkPacker tok src fmt w inf = Except.error ConfigError.invalidWindowLength ∧
    ∀ cfg, mkPacker tok src fmt w inf ≠ Except.ok cfg := by
  have h : mkPacker tok src fmt w inf =
      Except.error ConfigError.invalidWindowLength := by
    unfold mkPacker
    rw [if_pos hw]
  refine ⟨h, fun cfg hcfg => ?_⟩
  rw [h] at hcfg
  exact absurd hcfg (by simp)

theorem C8_config_error_witness :
    mkPacker charTok ([] : List String) id (-1) false =
      Except.error ConfigError.invalidWindowLength ∧
    ∀ cfg, mkPacker charTok ([] : List String) id (-1) false ≠ Except.ok cfg :=
  C8_config_error charTok ([] : List String) id (-1) false (by decide)

/-! The Cohere dataset-preprocessing loop of Tutorial 3: per-item
deduplicated entity-name lists and the test-split filter. -/

/-- One annotated entity of a BC5CDR passage: `text` is the list of surface
strings and `type` is `"Chemical"` or `"Disease"`. -/
structure Entity where
  text : List String
  type : String

/-- The surface string the loop reads from an entity: `ent['text'][0]`
(`headD` models the successful index into the always non-empty `text`
list). -/
def entText0 (e : Entity) : String :=
  e.text.headD ""

/-- Append a name to the accumulator unless it is already present — the body
of `if ent['text'][0] not in chems: chems.append(ent['text'][0])`. -/
def addName (acc : List String) (x : String) : List String :=
  if x ∈ acc then acc else acc ++ [x]

/-- One iteration of the entity loop of the preprocessing cell: the
`Chemical` branch updates `chems`, the `Disease` branch updates `dis`. -/
def entityStep (chems dis : List String) (ent : Entity) :
    List String × List String :=
  (if ent.type = "Chemical" then addName chems (entText0 ent) else chems,
   if ent.type = "Disease" then addName dis (entText0 ent) else dis)

/-- The per-item entity loop: fold `entityStep` over the abstract's entities
starting from empty `chems` and `dis`. -/
def processEntities (ents : List Entity) : List String × List String :=
  ents.foldl (fun acc ent => entityStep acc.1 acc.2 ent) ([], [])

/-- The raw sequence of names of entities of type `ty`, in order of
occurrence (with repetitions). -/
def namesOf (ty : String) (ents : List Entity) : List String :=
  (ents.filter (fun e => e.type == ty)).map entText0

/-- One passage of a BC5CDR item. -/
structure Passage where
  entities : List Entity

/-- One item of the BC5CDR JSON as the loop reads it: the `dataset_type` tag
and the passage list (`item['passages'][1]` is the abstract passage). -/
structure Item where
  dataset_type : String
  passages : List Passage

/-- The entity list of the abstract passage, `item['passages'][1]['entities']`. -/
def abstractEntities (it : Item) : List Entity :=
  (it.passages.getD 1 ⟨[]⟩).entities

/-- The accumulation loop of the preprocessing cell: iterate over the
dataset, skip any item whose `dataset_type` is `"test"` before processing it
(`continue`), and append the processed result of every other item.  The
result appended per item is abstracted as `mk` (the notebook builds a
prompt/completion dictionary from the item's abstract text and disease
names). -/
def the_list {β : Type} (mk : Item → β) (data : List Item) : List β :=
  data.foldl
    (fun acc item =>
      if item.dataset_type = "test" then acc else acc ++ [mk item]) []

/-- The JSONL writer: one serialized object followed by one newline per entry
of the accumulated list (`outfile.write(json.dumps(item) + "\n")`). -/
def writeJsonl {β : Type} (dumps : β → String) (l : List β) : String :=
  String.join (l.map (fun item => dumps item ++ "\n"))

/-- Invariant of the deduplicating fold: starting from an accumulator that
holds exactly the names of the already processed prefix, without duplicates
and ordered by first occurrence in the full list, folding `addName` over the
remaining names preserves all three properties. -/
theorem foldl_addName_inv (full : List String) :
    ∀ (l pre acc : List String), full = pre ++ l →
      acc.Nodup →
      (∀ x, x ∈ acc ↔ x ∈ pre) →
      acc.Pairwise (fun a b => full.indexOf a < full.indexOf b) →
      (l.foldl addName acc).Nodup ∧
      (∀ x, x ∈ l.foldl addName acc ↔ x ∈ full) ∧
      (l.foldl addName acc).Pairwise
        (fun a b => full.indexOf a < full.indexOf b) := by
  intro l
  induction l with
  | nil =>
    intro pre acc hfull h1 h2 h3
    refine ⟨h1, ?_, h3⟩
    intro x
    rw [hfull]
    simpa using h2 x
  | cons x xs ih =>
    intro pre acc hfull h1 h2 h3
    by_cases hx : x ∈ acc
    · have hadd : addName acc x = acc := by simp [addName, hx]
      have h2' : ∀ y, y ∈ acc ↔ y ∈ pre ++ [x] := by
        intro y
        constructor
        · intro hy
          exact List.mem_append_left _ ((h2 y).mp hy)
        · intro hy
          rcases List.mem_append.mp hy with hy | hy
          · exact (h2 y).mpr hy
          · rw [List.mem_singleton.mp hy]
            exact hx
      have hfull' : full = (pre ++ [x]) ++ xs := by
        rw [hfull, List.append_assoc, List.singleton_append]
      have := ih (pre ++ [x]) acc hfull' h1 h2' h3
      simpa [List.foldl_cons, hadd] using this
    · have hadd : addName acc x = acc ++ [x] := by simp [addName, hx]
      have hxpre : x ∉ pre := fun hc => hx ((h2 x).mpr hc)
      have h1' : (acc ++ [x]).Nodup := by
        rw [List.nodup_append]
        refine ⟨h1, List.nodup_singleton x, ?_⟩
        intro a ha hb
        rw [List.mem_singleton.mp hb] at ha
        exact hx ha
      have h2' : ∀ y, y ∈ acc ++ [x] ↔ y ∈ pre ++ [x] := by
        intro y
        simp only [List.mem_append]
        rw [h2 y]
      have h3' : (acc ++ [x]).Pairwise
          (fun a b => full.indexOf a < full.indexOf b) := by
        rw [List.pairwise_append]
        refine ⟨h3, List.pairwise_singleton _ _, ?_⟩
        intro a ha b hb
        rw [List.mem_singleton.mp hb]
        have hapre : a ∈ pre := (h2 a).mp ha
        rw [hfull, List.indexOf_append_of_mem hapre,
          List.indexOf_append_of_not_mem hxpre, List.indexOf_cons_self]
        have := List.indexOf_lt_length.mpr hapre
        omega
      have hfull' : full = (pre ++ [x]) ++ xs := by
        rw [hfull, List.append_assoc, List.singleton_append]
      have := ih (pre ++ [x]) (acc ++ [x]) hfull' h1' h2' h3'
      simpa [List.foldl_cons, hadd] using this

/-- The `chems` component of the entity loop equals the deduplicating fold
over the raw chemical-name sequence. -/
theorem processEntities_fst :
    ∀ (ents : List Entity) (chems dis : List String),
      (ents.foldl (fun acc ent => entityStep acc.1 acc.2 ent) (chems, dis)).1 =
        (namesOf "Chemical" ents).foldl addName chems := by
  intro ents
  induction ents with
  | nil =>
    intro chems dis
    rfl
  | cons e es ih =>
    intro chems dis
    simp only [List.foldl_cons]
    rw [ih]
    by_cases hc : e.type = "Chemical"
    · simp [namesOf, entityStep, hc]
    · simp [namesOf, entityStep, hc]

/-- The `dis` component of the entity loop equals the deduplicating fold over
the raw disease-name sequence. -/
theorem processEntities_snd :
    ∀ (ents : List Entity) (chems dis : List String),
      (ents.foldl (fun acc ent => entityStep acc.1 acc.2 ent) (chems, dis)).2 =
        (namesOf "Disease" ents).foldl addName dis := by
  intro ents
  induction ents with
  | nil =>
    intro chems dis
    rfl
  | cons e es ih =>
    intro chems dis
    simp only [List.foldl_cons]
    rw [ih]
    by_cases hd : e.type = "Disease"
    · simp [namesOf, entityStep, hd]
    · simp [namesOf, entityStep, hd]

/-- C9: for every input dataset item, the per-item `chems` and `dis` lists
built by the Cohere preprocessing loop contain each entity name at most once
(no duplicates), contain exactly the names occurring among the item's
abstract entities of the matching type, and list them in order of first
occurrence. -/
theorem C9_dedup_first_occurrence (item : Item) :
    ((processEntities (abstractEntities item)).1.Nodup ∧
      (∀ x, x ∈ (processEntities (abstractEntities item)).1 ↔
        x ∈ namesOf "Chemical" (abstractEntities item)) ∧
      (processEntities (abstractEntities item)).1.Pairwise (fun a b =>
        (namesOf "Chemical" (abstractEntities item)).indexOf a <
          (namesOf "Chemical" (abstractEntities item)).indexOf b)) ∧
    ((processEntities (abstractEntities item)).2.Nodup ∧
      (∀ x, x ∈ (processEntities (abstractEntities item)).2 ↔
        x ∈ namesOf "Disease" (abstractEntities item)) ∧
      (processEntities (abstractEntities item)).2.Pairwise (fun a b =>
        (namesOf "Disease" (abstractEntities item)).indexOf a <
          (namesOf "Disease" (abstractEntities item)).indexOf b)) := by
  constructor
  · have heq : (processEntities (abstractEntities item)).1 =
        (namesOf "Chemical" (abstractEntities item)).foldl addName [] :=
      processEntities_fst (abstractEntities item) [] []
    rw [heq]
    exact foldl_addName_inv (namesOf "Chemical" (abstractEntities item))
      (namesOf "Chemical" (abstractEntities item)) [] [] (by simp)
      List.nodup_nil (by simp) (List.Pairwise.nil)
  · have heq : (processEntities (abstractEntities item)).2 =
        (namesOf "Disease" (abstractEntities item)).foldl addName [] :=
      processEntities_snd (abstractEntities item) [] []
    rw [heq]
    exact foldl_addName_inv (namesOf "Disease" (abstractEntities item))
      (namesOf "Disease" (abstractEntities item)) [] [] (by simp)
      List.nodup_nil (by simp) (List.Pairwise.nil)

/-- The accumulation loop, generalized over its starting accumulator. -/
theorem the_list_foldl {β : Type} (mk : Item → β) :
    ∀ (data : List Item) (acc : List β),
      data.foldl
        (fun acc item =>
          if item.dataset_type = "test" then acc else acc ++ [mk item]) acc =
      acc ++ (data.filter (fun item => !(item.dataset_type == "test"))).map mk := by
  intro data
  induction data with
  | nil =>
    intro acc
    simp
  | cons item rest ih =>
    intro acc
    simp only [List.foldl_cons]
    by_cases ht : item.dataset_type = "test"
    · rw [if_pos ht, ih]
      simp [List.filter_cons, ht]
    · rw [if_neg ht, ih]
      simp [List.filter_cons, ht]

/-- C10: every item whose `dataset_type` equals `"test"` is skipped entirely:
the accumulated list equals the processed non-test items in their original
order, and the JSONL file written from it (one JSON object per line)
therefore contains one line per non-test item only. -/
theorem C10_test_items_skipped {β : Type} (mk : Item → β) (dumps : β → String)
    (data : List Item) :
    the_list mk data =
      (data.filter (fun item => !(item.dataset_type == "test"))).map mk ∧
    writeJsonl dumps (the_list mk data) =
      String.join
        (((data.filter (fun item => !(item.dataset_type == "test"))).map mk).map
          (fun item => dumps item ++ "\n")) := by
  have h := the_list_foldl mk data []
  rw [List.nil_append] at h
  have h2 : the_list mk data =
      (data.filter (fun item => !(item.dataset_type == "test"))).map mk := h
  exact ⟨h2, by rw [writeJsonl, h2]⟩

end FineTuning
